import Mathlib

/-!
Verification of the breach-news monitor server (Express/Node application).

The development shallowly embeds the server's pipeline in Lean:
JavaScript strings become `String`/`List Char`, epoch-millisecond
timestamps become `Int`, JavaScript objects used as dictionaries become
association lists, and the fallible parts return `Option`.  External
library calls (the `natural` tokenizer and Porter stemmer, the
`stopword` list, `Date` parsing of date strings) are not part of the
repository, so they enter either as parameters of the embedded
functions or as definitions modelled from the specification, each
marked as such in its doc comment.
-/

namespace BreachNews

/-- JS `a.includes(b)` for strings modelled as char lists: `b` occurs as a
contiguous substring of `a`. -/
def containsSub (hay needle : List Char) : Bool :=
  decide (needle <:+: hay)

/-! ### Stable sorting

`Array.prototype.sort` is specified to be stable; for a transitive and
total comparator (the only kind this server uses) the stable result is
unique, so any stable sort embeds it faithfully.  Insertion sort is
used because it is structurally recursive, hence kernel-computable. -/

/-- Insert `a` into `l` before the first element `b` with `le a b`
(equal elements keep the earlier-seen one in front). -/
def insertLe {α : Type} (le : α → α → Bool) (a : α) : List α → List α
  | [] => [a]
  | b :: l => if le a b then a :: b :: l else b :: insertLe le a l

/-- The stable sort by comparator `le` (JS
`sort((a, b) => cmp(a, b))` with `le a b` meaning `cmp a b ≤ 0`). -/
def stableSort {α : Type} (le : α → α → Bool) : List α → List α
  | [] => []
  | a :: l => insertLe le a (stableSort le l)

/-! ### Title splitter (`extractSourceFromTitle`) -/

/-- The literal separator `" - "` used by `extractSourceFromTitle`. -/
def sepChars : List Char := [' ', '-', ' ']

/-- JS `title.split(" - ")`: scan left to right; each non-overlapping
occurrence of the separator ends the current segment.  Embeds the
`title.split(" - ")` call in `extractSourceFromTitle`. -/
def splitSep : List Char → List (List Char)
  | ' ' :: '-' :: ' ' :: t => [] :: splitSep t
  | c :: cs => (splitSep cs).modifyHead (c :: ·)
  | [] => [[]]

/-- `extractSourceFromTitle` on char lists: if the title contains `" - "`,
split on it, `pop` the last part as the source and re-`join` the rest as
the main title; otherwise the source is the sentinel `"Unknown"`. -/
def extractSourceFromTitle (title : List Char) : List Char × List Char :=
  if containsSub title sepChars then
    let parts := splitSep title
    (List.intercalate sepChars parts.dropLast, parts.getLastD [])
  else
    (title, "Unknown".toList)

/-- String-level wrapper of `extractSourceFromTitle`, as used on feed
entry titles. -/
def extractSourceFromTitleS (title : String) : String × String :=
  let p := extractSourceFromTitle title.toList
  (p.1.asString, p.2.asString)

/-- Modelled from the spec: the index of the **last** occurrence of
`" - "` in the title (the spec's reading "the last occurrence delimits
source from title").  Used to compare the spec's description with the
code's left-to-right non-overlapping split. -/
def lastSepIdx (l : List Char) : Option Nat :=
  ((List.range l.length).filter (fun i => decide (sepChars <+: l.drop i))).getLast?

/-- Modelled from the spec: split at the last occurrence of `" - "`:
everything after it is the source, everything before it is the title. -/
def splitAtLastSep (l : List Char) : Option (List Char × List Char) :=
  match lastSepIdx l with
  | some i => some (l.take i, l.drop (i + 3))
  | none => none

/-! ### Articles and deduplication -/

/-- An article as assembled by `fetchGoogleNews` (field names follow the
JavaScript object literal; `date_obj` is the publish instant in epoch
milliseconds, kept for sorting). -/
structure Article where
  search_term : String
  title : String
  pub_date : String
  time_ago : String
  date_obj : Int
  link : String
  source : String
  keywords : String
deriving DecidableEq, Repr

/-- `article.title.toLowerCase()` as a char list (ASCII lowering; the
titles involved in the claims are ASCII). -/
def titleKey (a : Article) : List Char :=
  a.title.toList.map Char.toLower

/-- The duplicate test of the dedup loop: some already-seen lowercased
title is a substring of the candidate or vice versa
(`titleLower.includes(seen) || seen.includes(titleLower)`). -/
def isDupTitle (seen : List (List Char)) (t : List Char) : Bool :=
  seen.any (fun s => containsSub t s || containsSub s t)

/-- The dedup loop of `fetchGoogleNews`: `seen` is the set of lowercased
titles accepted so far; a candidate is kept iff `isDupTitle` rejects it,
and its lowercased title is then added to `seen`. -/
def dedupGo (seen : List (List Char)) : List Article → List Article
  | [] => []
  | a :: rest =>
    if isDupTitle seen (titleKey a) then dedupGo seen rest
    else a :: dedupGo (titleKey a :: seen) rest

/-- Deduplication over the whole concatenated article list, starting
from an empty seen-set. -/
def dedupArticles (l : List Article) : List Article :=
  dedupGo [] l

/-- The seen-set after the dedup loop has processed `l` starting from
`seen` (the contents of `seenTitles` at that point). -/
def seenPlus (seen : List (List Char)) : List Article → List (List Char)
  | [] => seen
  | a :: rest =>
    if isDupTitle seen (titleKey a) then seenPlus seen rest
    else seenPlus (titleKey a :: seen) rest

/-! ### Text cleaning (`extractKeywords`, lines 60-94) -/

/-- The whitespace class `\s` of JavaScript regexes (ASCII part plus
no-break space and BOM; the feed texts involved are ASCII). -/
def isJsSpace (c : Char) : Bool :=
  c = ' ' || c = '\t' || c = '\n' || c = '\x0d' || c = '\x0b' || c = '\x0c' ||
  c = '\u00a0' || c = '\ufeff'

/-- Line terminators, which `.` in a JavaScript regex does not match. -/
def isLineTerm (c : Char) : Bool :=
  c = '\n' || c = '\x0d' || c = '\u2028' || c = '\u2029'

mutual
/-- `text.replace(/<.*?>/g, '')`: outside a candidate tag.  On `<` start
buffering a candidate tag; other characters pass through. -/
def stripTagsGo : List Char → List Char
  | [] => []
  | c :: cs => if c = '<' then stripTagsIn ['<'] cs else c :: stripTagsGo cs

/-- Inside a candidate tag: `buf` holds the scanned characters in
reverse.  A `>` closes the non-greedy match and the whole tag is
dropped; a line terminator or the end of input means no match started
at the buffered `<` (nor at any `<` inside the buffer, which faces the
same blocking terminator), so the buffer is emitted verbatim. -/
def stripTagsIn (buf : List Char) : List Char → List Char
  | [] => buf.reverse
  | c :: cs =>
    if c = '>' then stripTagsGo cs
    else if isLineTerm c then buf.reverse ++ c :: stripTagsGo cs
    else stripTagsIn (c :: buf) cs
end

mutual
/-- `text.replace(/http\S+/g, '')`: drop `http` followed by a maximal
nonempty run of non-whitespace.  A match can only start at an `h`, so
other characters pass through; `http` followed by whitespace or end of
input is no match and passes through (no later match can start inside
the literal `ttp`). -/
def stripUrlsGo : List Char → List Char
  | 'h' :: 't' :: 't' :: 'p' :: c :: cs =>
    if isJsSpace c then 'h' :: 't' :: 't' :: 'p' :: c :: stripUrlsGo cs
    else stripUrlsSkip cs
  | c :: cs => c :: stripUrlsGo cs
  | [] => []

/-- Inside the `\S+` run of a URL match: drop characters until
whitespace or end of input. -/
def stripUrlsSkip : List Char → List Char
  | [] => []
  | c :: cs => if isJsSpace c then c :: stripUrlsGo cs else stripUrlsSkip cs
end

mutual
/-- `text.replace(/\s+/g, ' ')`: outside a whitespace run. -/
def collapseWs : List Char → List Char
  | [] => []
  | c :: cs => if isJsSpace c then ' ' :: collapseWsSkip cs else c :: collapseWs cs

/-- Inside a whitespace run (already emitted as one space). -/
def collapseWsSkip : List Char → List Char
  | [] => []
  | c :: cs => if isJsSpace c then collapseWsSkip cs else c :: collapseWs cs
end

/-- JS `String.prototype.trim`: strip whitespace from both ends. -/
def jsTrim (l : List Char) : List Char :=
  ((l.dropWhile isJsSpace).reverse.dropWhile isJsSpace).reverse

/-- The cleaning steps of `extractKeywords` in source order: strip
HTML-tag-like substrings, strip URL-like substrings, collapse
whitespace runs to single spaces, trim, lowercase (ASCII lowering,
matching the feeds' ASCII content). -/
def cleanText (s : String) : String :=
  ((jsTrim (collapseWs (stripUrlsGo (stripTagsGo s.toList)))).map Char.toLower).asString

/-! ### Keyword extraction -/

/-- The fixed extra stopword list of `extractKeywords`. -/
def additionalStops : List String :=
  ["said", "also", "would", "according", "reported", "news"]

/-- The regex test `/^[a-z0-9]+$/.test(word)`. -/
def isAlnumWord (w : String) : Bool :=
  !w.isEmpty && w.toList.all (fun c => ('a' ≤ c && c ≤ 'z') || ('0' ≤ c && c ≤ '9'))

/-- One step of frequency counting,
`wordFreq[word] = (wordFreq[word] || 0) + 1`, on the frequency object
modelled as an association list in key-creation order. -/
def bump : List (String × Nat) → String → List (String × Nat)
  | [], w => [(w, 1)]
  | (k, n) :: rest, w =>
    if k = w then (k, n + 1) :: rest else (k, n) :: bump rest w

/-- Frequency counting over the stemmed token list; keys appear in
first-encounter order. -/
def countFreq (ws : List String) : List (String × Nat) :=
  ws.foldl bump []

/-- A decimal digit. -/
def isDigitChar (c : Char) : Bool := '0' ≤ c && c ≤ '9'

/-- Value of a digit string (most significant first). -/
def charsToNat : List Char → Nat → Nat
  | [], acc => acc
  | c :: cs, acc => charsToNat cs (acc * 10 + (c.toNat - 48))

/-- Parse a nonempty all-digit string to its value. -/
def digitsToNat? (s : String) : Option Nat :=
  let cs := s.toList
  if cs ≠ [] && cs.all isDigitChar then some (charsToNat cs 0) else none

/-- A string key of a JavaScript object is an *array index* iff it is
the canonical decimal form of some `n < 2^32 - 1`.  `Object.entries`
enumerates such keys first, in ascending numeric order. -/
def isArrayIndex (s : String) : Bool :=
  match digitsToNat? s with
  | some n => decide (toString n = s) && decide (n < 4294967295)
  | none => false

/-- Numeric value of an array-index key. -/
def keyNum (s : String) : Nat :=
  (digitsToNat? s).getD 0

/-- `Object.entries(wordFreq)`: array-index keys first in ascending
numeric order, then the remaining string keys in creation order. -/
def jsEntries (m : List (String × Nat)) : List (String × Nat) :=
  stableSort (fun a b => decide (keyNum a.1 ≤ keyNum b.1))
      (m.filter (fun p => isArrayIndex p.1))
    ++ m.filter (fun p => !isArrayIndex p.1)

/-- `wordPairs.sort((a, b) => b[1] - a[1])`: a stable sort by frequency
descending (`Array.prototype.sort` is specified to be stable). -/
def sortPairs (l : List (String × Nat)) : List (String × Nat) :=
  stableSort (fun a b => decide (b.2 ≤ a.2)) l

/-- `extractKeywords(text, topN)` (source lines 60-94), parameterized
over the three external-library calls it makes: the `stopword` list
membership test `stopF`, the `natural` Porter stemmer `stem`, and the
`natural` word tokenizer `tokenize`.  Absent input (JS `undefined`) is
modelled by the empty string, which is equally falsy. -/
def extractKeywords (stopF : String → Bool) (stem : String → String)
    (tokenize : String → List String) (text : String) (topN : Nat) :
    List (String × Nat) :=
  if text = "" then []
  else
    let tokens := tokenize (cleanText text)
    let filteredTokens := (tokens.filter (fun w => !stopF w)).filter (fun w =>
      !additionalStops.contains w && isAlnumWord w && decide (2 < w.length))
    let stemmed := filteredTokens.map stem
    (sortPairs (jsEntries (countFreq stemmed))).take topN

/-- Modelled from the spec: `extractKeywords` as the spec's words
describe its ordering — "sort descending by frequency, stable on ties"
with ties in the order the stems were first encountered, i.e. without
the array-index reordering that `Object.entries` performs. -/
def extractKeywordsSpecOrder (stopF : String → Bool) (stem : String → String)
    (tokenize : String → List String) (text : String) (topN : Nat) :
    List (String × Nat) :=
  if text = "" then []
  else
    let tokens := tokenize (cleanText text)
    let filteredTokens := (tokens.filter (fun w => !stopF w)).filter (fun w =>
      !additionalStops.contains w && isAlnumWord w && decide (2 < w.length))
    let stemmed := filteredTokens.map stem
    (sortPairs (countFreq stemmed)).take topN

/-! ### Modelled external libraries

The tokenizer, stopword list and stemmer come from the `natural` and
`stopword` npm packages, which are dependencies, not part of this
repository.  They are modelled from the spec for use in concrete
witnesses; all general theorems are proved for arbitrary
instantiations. -/

/-- A word character for the modelled tokenizer (ASCII letters, digits,
underscore). -/
def isWordChar (c : Char) : Bool :=
  ('a' ≤ c && c ≤ 'z') || ('A' ≤ c && c ≤ 'Z') || ('0' ≤ c && c ≤ '9') || c = '_'

/-- Modelled from the spec: the word tokenizer ("tokenize on word
boundaries", spec 4.1 step 3): maximal runs of word characters become
tokens, everything else separates. -/
def tokenizeModel (s : String) : List String :=
  ((s.toList.splitOnP (fun c => !isWordChar c)).filter (· ≠ [])).map List.asString

/-- Modelled from the spec: a standard English stopword set (spec 4.1
step 4); a representative fixed list of common function words. -/
def stopModelList : List String :=
  ["a", "an", "the", "and", "or", "but", "if", "of", "at", "by", "for",
   "with", "about", "to", "from", "in", "on", "is", "are", "was", "were",
   "be", "been", "being", "have", "has", "had", "do", "does", "did",
   "will", "can", "could", "should", "may", "might", "must", "that",
   "this", "these", "those", "it", "its", "he", "she", "they", "them",
   "his", "her", "their", "we", "our", "you", "your", "me", "my", "as",
   "not", "no", "than", "then", "so", "too", "very", "just", "over",
   "under", "again", "once", "here", "there", "when", "where", "why",
   "how", "all", "any", "both", "each", "few", "more", "most", "other",
   "some", "such", "only", "own", "same", "now", "into", "out", "up",
   "down", "what", "who", "whom", "which", "while", "after", "before",
   "between", "during", "until", "off", "because"]

/-- Membership test in the modelled stopword list. -/
def stopModel (w : String) : Bool :=
  stopModelList.contains w

/-- Modelled from the spec: the Porter-style rule-based stemmer of the
`natural` package (spec 4.1 step 6).  Porter rules rewrite fixed
*letter* suffixes; the model implements step 1a (plural stripping:
`sses` to `ss`, `ies` to `i`, `ss` kept, trailing `s` dropped) and
leaves words without a matching letter suffix unchanged — in
particular, digit-only tokens are fixed points, as under Porter. -/
def stemModel (w : String) : String :=
  let cs := w.toList
  if cs.reverse.take 4 = ['s', 'e', 's', 's'] then (cs.take (cs.length - 2)).asString
  else if cs.reverse.take 3 = ['s', 'e', 'i'] then (cs.take (cs.length - 2)).asString
  else if cs.reverse.take 2 = ['s', 's'] then w
  else if cs.reverse.take 1 = ['s'] then (cs.take (cs.length - 1)).asString
  else w

/-- `extractKeywords` instantiated with the modelled libraries. -/
def extractKeywordsModel (text : String) (topN : Nat) : List (String × Nat) :=
  extractKeywords stopModel stemModel tokenizeModel text topN

/-! ### Dates and their display

Epoch-millisecond instants are `Int`.  `civilFromDays` is the standard
civil-from-days conversion (proleptic Gregorian, UTC), used to embed
`toISOString` and `toLocaleDateString("en-US", ...)`; the server clock
is modelled in UTC. -/

/-- Year, month (1-12) and day (1-31) of a day count relative to
1970-01-01. -/
def civilFromDays (z0 : Int) : Int × Nat × Nat :=
  let z := z0 + 719468
  let era : Int := z.ediv 146097
  let doe : Nat := (z - era * 146097).toNat
  let yoe : Nat := (doe - doe / 1460 + doe / 36524 - doe / 146096) / 365
  let y : Int := yoe + era * 400
  let doy : Nat := doe - (365 * yoe + yoe / 4 - yoe / 100)
  let mp : Nat := (5 * doy + 2) / 153
  let d : Nat := doy - (153 * mp + 2) / 5 + 1
  let m : Nat := if mp < 10 then mp + 3 else mp - 9
  (if m ≤ 2 then y + 1 else y, m, d)

/-- The day count of an instant (floor division, as `Date` does). -/
def dayNumber (t : Int) : Int := t.ediv 86400000

/-- Milliseconds elapsed within the day of an instant. -/
def msOfDay (t : Int) : Nat := (t.emod 86400000).toNat

/-- Left-pad a number to two digits. -/
def pad2 (n : Nat) : String := if n < 10 then "0" ++ toString n else toString n

/-- Left-pad a number to three digits. -/
def pad3 (n : Nat) : String :=
  if n < 10 then "00" ++ toString n
  else if n < 100 then "0" ++ toString n else toString n

/-- Left-pad a number to four digits. -/
def pad4 (n : Nat) : String :=
  if n < 10 then "000" ++ toString n
  else if n < 100 then "00" ++ toString n
  else if n < 1000 then "0" ++ toString n else toString n

/-- `date.toISOString().split('T')[0]`: the `YYYY-MM-DD` day string of
an instant (for years 0-9999, which covers every date a news feed can
carry). -/
def isoDay (t : Int) : String :=
  let c := civilFromDays (dayNumber t)
  pad4 c.1.toNat ++ "-" ++ pad2 c.2.1 ++ "-" ++ pad2 c.2.2

/-- `date.toISOString()`: the full `YYYY-MM-DDTHH:MM:SS.mmmZ` string. -/
def isoString (t : Int) : String :=
  let ms := msOfDay t
  isoDay t ++ "T" ++ pad2 (ms / 3600000) ++ ":" ++ pad2 (ms / 60000 % 60)
    ++ ":" ++ pad2 (ms / 1000 % 60) ++ "." ++ pad3 (ms % 1000) ++ "Z"

/-- JS `replace('T', ' ')` on a char list: replace the first occurrence
only. -/
def replaceFirstChar (c r : Char) : List Char → List Char
  | [] => []
  | x :: xs => if x = c then r :: xs else x :: replaceFirstChar c r xs

/-- The report footer timestamp
`new Date().toISOString().replace('T', ' ').substr(0, 19)`. -/
def footerStamp (t : Int) : String :=
  ((replaceFirstChar 'T' ' ' (isoString t).toList).take 19).asString

/-- Abbreviated en-US month names, as produced by
`toLocaleDateString("en-US", { month: "short" })`. -/
def monthShort : Nat → String
  | 1 => "Jan" | 2 => "Feb" | 3 => "Mar" | 4 => "Apr" | 5 => "May" | 6 => "Jun"
  | 7 => "Jul" | 8 => "Aug" | 9 => "Sep" | 10 => "Oct" | 11 => "Nov" | 12 => "Dec"
  | _ => ""

/-- `toLocaleDateString("en-US", { month: "short", day: "numeric" })`. -/
def formatDate (t : Int) : String :=
  let c := civilFromDays (dayNumber t)
  monthShort c.2.1 ++ " " ++ toString c.2.2

/-- `toLocaleDateString("en-US", { month: "short", day: "numeric",
year: "numeric" })`. -/
def formatFullDate (t : Int) : String :=
  let c := civilFromDays (dayNumber t)
  monthShort c.2.1 ++ " " ++ toString c.2.2 ++ ", " ++ toString c.1

/-! ### Feed entries and `fetchGoogleNews` -/

/-- A raw RSS feed item as delivered by `rss-parser`: every field the
server reads, each possibly absent. -/
structure FeedEntry where
  title : Option String
  pubDate : Option String
  isoDate : Option String
  content : Option String
  contentSnippet : Option String
  link : Option String
deriving DecidableEq, Repr

/-- JS truthiness of an optional string: `undefined` and `""` are both
falsy, so `x || y` moves on from either. -/
def truthyStr : Option String → Option String
  | some s => if s = "" then none else some s
  | none => none

/-- The external calls `fetchGoogleNews` makes per entry, bundled:
stopword test, stemmer and tokenizer (consumed by `extractKeywords`)
and `new Date(str)` parsing, where `none` models an Invalid Date.
`new Date(str)` never throws, so the `catch` inside `parseDate` is
unreachable. -/
structure Libs where
  stopF : String → Bool
  stem : String → String
  tokenize : String → List String
  parse : String → Option Int

/-- `entry.pubDate || entry.isoDate` followed by the truthiness test of
`pubDateStr ? ... : ...`: the first nonempty present field, if any. -/
def effPubDateStr (e : FeedEntry) : Option String :=
  match truthyStr e.pubDate with
  | some s => some s
  | none => truthyStr e.isoDate

/-- Processing of one feed entry (source lines 151-206).  `now` stands
for the `new Date()` calls of the refresh (taken at one instant) and
`weekAgo` for `oneWeekAgo`.  Returns `none` when the entry is dropped:
either by the recency filter `pubDateObj < oneWeekAgo`, or because
`pubDateObj` is an Invalid Date — the filter comparison is then false
(NaN), but `toISOString()` throws and the per-entry `catch` skips the
entry. -/
def processEntry (L : Libs) (now weekAgo : Int) (searchTerm : String)
    (e : FeedEntry) : Option Article :=
  let cleanPair := extractSourceFromTitleS ((truthyStr e.title).getD "")
  let pubDateObj : Option Int :=
    match effPubDateStr e with
    | none => some now
    | some s => L.parse s
  match pubDateObj with
  | none => none
  | some d =>
    if d < weekAgo then none
    else
      let timeDiff := now - d
      let daysAgo : Int := timeDiff.ediv 86400000
      let hoursAgo : Int := timeDiff.ediv 3600000
      let timeAgo :=
        if 0 < daysAgo then
          toString daysAgo ++ " day" ++ (if daysAgo ≠ 1 then "s" else "") ++ " ago"
        else
          toString hoursAgo ++ " hour" ++ (if hoursAgo ≠ 1 then "s" else "") ++ " ago"
      let summary := ((truthyStr e.content).or (truthyStr e.contentSnippet)).getD ""
      let content := cleanPair.1 ++ " " ++ summary
      let kws := extractKeywords L.stopF L.stem L.tokenize content 5
      some
        { search_term := searchTerm
          title := cleanPair.1
          pub_date := isoDay d
          time_ago := timeAgo
          date_obj := d
          link := (truthyStr e.link).getD ""
          source := cleanPair.2
          keywords := String.intercalate ", " (kws.map (·.1)) }

/-- All accepted articles of one feed, in entry order (a failing entry
contributes nothing, the rest of the feed is still processed). -/
def collectFeed (L : Libs) (now weekAgo : Int) (searchTerm : String)
    (entries : List FeedEntry) : List Article :=
  entries.filterMap (processEntry L now weekAgo searchTerm)

/-- The concatenation over all feeds in configuration order (a failing
feed is modelled by an empty entry list; the inter-feed delay has no
effect on the result). -/
def collectAll (L : Libs) (now weekAgo : Int)
    (feeds : List (String × List FeedEntry)) : List Article :=
  (feeds.map fun f => collectFeed L now weekAgo f.1 f.2).flatten

/-- `uniqueArticles.sort((a, b) => b.date_obj - a.date_obj)`: a stable
sort, newest first (`Array.prototype.sort` is specified to be
stable; `a` may precede `b` iff the comparator is nonpositive, i.e.
`b.date_obj ≤ a.date_obj`). -/
def sortArticles (l : List Article) : List Article :=
  stableSort (fun a b => decide (b.date_obj ≤ a.date_obj)) l

/-- `fetchGoogleNews` (source lines 129-238) over given feed contents:
compute `oneWeekAgo` (`setDate(getDate() - 7)`, modelled as exactly
seven days), process every entry of every feed, deduplicate by title
similarity, sort by date descending. -/
def fetchGoogleNews (L : Libs) (now : Int)
    (feeds : List (String × List FeedEntry)) : List Article :=
  let weekAgo := now - 7 * 86400000
  sortArticles (dedupArticles (collectAll L now weekAgo feeds))

/-! ### The cache and the `/api/breach-news` handler -/

/-- The `meta` object of an API result.  `generated_at` is
`new Date().toISOString()` at build time, modelled by the instant
itself (the ISO formatter is injective down to the millisecond);
`range_start`/`range_end` likewise stand for the `date_range` day
strings via their instants. -/
structure ApiMeta where
  generated_at : Int
  article_count : Nat
  sources : Nat
  range_start : Int
  range_end : Int
deriving DecidableEq, Repr

/-- The JSON payload served by `/api/breach-news`. -/
structure Payload where
  meta : ApiMeta
  articles : List Article
deriving DecidableEq, Repr

/-- The module-level `newsCache` object: `data`/`timestamp` start as
`null`. -/
structure NewsCache where
  data : Option Payload
  timestamp : Option Int
deriving DecidableEq, Repr

/-- `newsCache.expiresIn`: one hour in milliseconds. -/
def cacheExpiresIn : Int := 3600000

/-- The freshness check
`newsCache.data && newsCache.timestamp && (now - newsCache.timestamp < newsCache.expiresIn)`:
returns the cached payload iff all three conjuncts are truthy.  A
stored timestamp of `0` is falsy in JS, hence the `t ≠ 0` conjunct. -/
def cachedPayload (c : NewsCache) (now : Int) : Option Payload :=
  match c.data, c.timestamp with
  | some p, some t =>
    if t ≠ 0 ∧ now - t < cacheExpiresIn then some p else none
  | _, _ => none

/-- The `result` object built from freshly fetched articles
(`[...new Set(articles.map(a => a.source))].length` is the number of
distinct sources). -/
def buildResult (now : Int) (articles : List Article) : Payload :=
  { meta :=
      { generated_at := now
        article_count := articles.length
        sources := ((articles.map (·.source)).eraseDups).length
        range_start := now - 7 * 24 * 60 * 60 * 1000
        range_end := now }
    articles := articles }

/-- The handler's two outcomes: `ok` is `res.json(result)` (status
200), `serverError` is `res.status(500).json({ error: message })`. -/
inductive ApiResponse where
  | ok (p : Payload)
  | serverError (msg : String)
deriving DecidableEq, Repr

/-- The `GET /api/breach-news` handler (source lines 364-400) as a
state transformer.  `now` is `Date.now()` at the start of the request;
`fetchResult` is what `await fetchGoogleNews()` would do if invoked —
return articles or throw.  The returned `Bool` records whether the
fetch was invoked.  On a throw the `catch` answers 500 and the two
cache writes (which come after the fetch) never run. -/
def breachNewsHandler (c : NewsCache) (now : Int)
    (fetchResult : Except String (List Article)) :
    ApiResponse × NewsCache × Bool :=
  match cachedPayload c now with
  | some p => (.ok p, c, false)
  | none =>
    match fetchResult with
    | .ok arts =>
      let result := buildResult now arts
      (.ok result, { data := some result, timestamp := some now }, true)
    | .error e => (.serverError e, c, true)

/-! ### The HTML report (`generateHtmlReport`, source lines 245-361)

The template literals are transcribed byte for byte (CSS braces written
with escapes).  The three `new Date()` calls the non-empty branch makes
(end of range, start of range, footer stamp) all read the clock, here
the explicit parameter `t`. -/

/-- The fixed "no articles" document (source lines 247-268). -/
def emptyReportHtml : String :=
  "\n      <!DOCTYPE html>\n      <html>\n      <head>\n"
  ++ "          <meta charset=\"UTF-8\">\n"
  ++ "          <meta name=\"viewport\" content=\"width=device-width, initial-scale=1.0\">\n"
  ++ "          <title>Weekly Data Breach News - No Articles Found</title>\n"
  ++ "          <style>\n"
  ++ "              body \x7b font-family: Arial, sans-serif; line-height: 1.6; color: #333; max-width: 800px; margin: 0 auto; padding: 20px; \x7d\n"
  ++ "              h1 \x7b color: #4285F4; \x7d\n"
  ++ "              .message \x7b background-color: #f8f9fa; padding: 20px; border-radius: 5px; margin: 20px 0; \x7d\n"
  ++ "          </style>\n      </head>\n      <body>\n"
  ++ "          <h1>Weekly Data Breach News</h1>\n"
  ++ "          <div class=\"message\">\n"
  ++ "              <h2>No data breach articles found from the past week</h2>\n"
  ++ "              <p>Try running the script again later, or check your internet connection.</p>\n"
  ++ "          </div>\n      </body>\n      </html>\n    "

/-- The opening of the tabular document, with the date range and the
article count interpolated (source lines 288-331). -/
def reportHead (dateRange : String) (count : Nat) : String :=
  "\n    <!DOCTYPE html>\n    <html>\n    <head>\n"
  ++ "        <meta charset=\"UTF-8\">\n"
  ++ "        <meta name=\"viewport\" content=\"width=device-width, initial-scale=1.0\">\n"
  ++ "        <title>Weekly Data Breach News - " ++ dateRange ++ "</title>\n"
  ++ "        <style>\n"
  ++ "            body \x7b font-family: Arial, sans-serif; line-height: 1.6; color: #333; max-width: 1200px; margin: 0 auto; padding: 20px; \x7d\n"
  ++ "            h1 \x7b color: #4285F4; padding-bottom: 10px; border-bottom: 1px solid #eee; \x7d\n"
  ++ "            .container \x7b overflow-x: auto; \x7d\n"
  ++ "            table \x7b border-collapse: collapse; width: 100%; margin: 20px 0; \x7d\n"
  ++ "            th \x7b background-color: #4285F4; color: white; padding: 10px; text-align: left; border: 1px solid #ddd; \x7d\n"
  ++ "            td \x7b padding: 10px; border: 1px solid #ddd; vertical-align: top; \x7d\n"
  ++ "            tr:nth-child(even) \x7b background-color: #f9f9f9; \x7d\n"
  ++ "            tr:hover \x7b background-color: #f1f1f1; \x7d\n"
  ++ "            a \x7b color: #4285F4; text-decoration: none; \x7d\n"
  ++ "            a:hover \x7b text-decoration: underline; \x7d\n"
  ++ "            .keywords \x7b font-style: italic; color: #666; \x7d\n"
  ++ "            .source \x7b font-weight: bold; color: #d32f2f; \x7d\n"
  ++ "            .search-term \x7b color: #388e3c; \x7d\n"
  ++ "            .date \x7b white-space: nowrap; \x7d\n"
  ++ "            .time-ago \x7b font-size: 0.85em; color: #666; display: block; \x7d\n"
  ++ "            .footer \x7b margin-top: 30px; padding-top: 15px; border-top: 1px solid #eee; font-size: 0.9em; color: #666; text-align: center; \x7d\n"
  ++ "        </style>\n    </head>\n    <body>\n"
  ++ "        <h1>Weekly Data Breach News</h1>\n"
  ++ "        <p>Data breach and cybersecurity news from " ++ dateRange ++ "</p>\n"
  ++ "        <p>Found " ++ toString count ++ " unique articles from the past week.</p>\n"
  ++ "        \n"
  ++ "        <div class=\"container\">\n            <table>\n                <thead>\n"
  ++ "                    <tr>\n"
  ++ "                        <th>Date</th>\n"
  ++ "                        <th>Source</th>\n"
  ++ "                        <th>Title</th>\n"
  ++ "                        <th>Keywords</th>\n"
  ++ "                        <th>Search Term</th>\n"
  ++ "                    </tr>\n"
  ++ "                </thead>\n                <tbody>\n  "

/-- One table row; the article fields are interpolated verbatim into
the markup (source lines 334-345). -/
def articleRow (a : Article) : String :=
  "\n        <tr>\n            <td class=\"date\">\n"
  ++ "                " ++ a.pub_date ++ "\n"
  ++ "                <span class=\"time-ago\">" ++ a.time_ago ++ "</span>\n"
  ++ "            </td>\n"
  ++ "            <td class=\"source\">" ++ a.source ++ "</td>\n"
  ++ "            <td><a href=\"" ++ a.link ++ "\" target=\"_blank\">" ++ a.title ++ "</a></td>\n"
  ++ "            <td class=\"keywords\">" ++ a.keywords ++ "</td>\n"
  ++ "            <td class=\"search-term\">" ++ a.search_term ++ "</td>\n"
  ++ "        </tr>\n    "

/-- The closing of the document, with the footer timestamp (source
lines 348-358). -/
def reportFoot (t : Int) : String :=
  "\n                </tbody>\n            </table>\n        </div>\n"
  ++ "        \n"
  ++ "        <div class=\"footer\">\n"
  ++ "            <p>This weekly report was generated on " ++ footerStamp t ++ "</p>\n"
  ++ "        </div>\n    </body>\n    </html>\n  "

/-- `generateHtmlReport(articles)` at clock time `t`.  The
empty/absent-input branch (`!articles || articles.length === 0`,
absence modelled by the empty list) returns the fixed document and
never reads the clock; the tabular branch interpolates the clock-derived
date range and footer stamp. -/
def generateHtmlReport (t : Int) (articles : List Article) : String :=
  if articles.isEmpty then emptyReportHtml
  else
    let dateRange := formatDate (t - 7 * 86400000) ++ " - " ++ formatFullDate t
    reportHead dateRange articles.length
      ++ String.join (articles.map articleRow)
      ++ reportFoot t

/-! ### Concrete instances used by witnesses and counterexamples -/

/-- Reference instant for the concrete scenarios:
`2023-11-14T22:13:20.000Z`. -/
def now0 : Int := 1700000000000

/-- Modelled from the spec: `new Date(str)` parsing (the date parser of
the JS runtime, not repository code), given on the RFC-822 date strings
appearing in the concrete feed entries below; every other string is an
Invalid Date (`new Date(str)` never throws). -/
def parse0 (s : String) : Option Int :=
  if s = "Tue, 14 Nov 2023 19:13:20 GMT" then some 1699989200000
  else if s = "Tue, 14 Nov 2023 23:13:20 GMT" then some 1700003600000
  else none

/-- The modelled external libraries bundled for concrete runs. -/
def libs0 : Libs :=
  { stopF := stopModel, stem := stemModel, tokenize := tokenizeModel
    parse := parse0 }

/-- A feed entry published three hours before `now0`. -/
def entryPast : FeedEntry :=
  { title := some "Major Breach At Acme Corp - Example News"
    pubDate := some "Tue, 14 Nov 2023 19:13:20 GMT"
    isoDate := none
    content := some "A breach occurred"
    contentSnippet := none
    link := some "https://example.com/a" }

/-- A feed entry whose publish date lies one hour *after* `now0`. -/
def entryFuture : FeedEntry :=
  { title := some "Future Breach - Example News"
    pubDate := some "Tue, 14 Nov 2023 23:13:20 GMT"
    isoDate := none
    content := some "A breach will occur"
    contentSnippet := none
    link := some "https://example.com/b" }

/-- A feed entry carrying an unparseable publish date. -/
def entryBadDate : FeedEntry :=
  { title := some "Bad Date Breach - Example News"
    pubDate := some "not-a-date"
    isoDate := none
    content := some "A breach occurred"
    contentSnippet := none
    link := some "https://example.com/c" }

/-- A sample article (fields as `fetchGoogleNews` would assemble them). -/
def artMajor : Article :=
  { search_term := "Data Breach"
    title := "Major Breach At Acme Corp"
    pub_date := "2023-11-14"
    time_ago := "3 hours ago"
    date_obj := 1699989200000
    link := "https://example.com/a"
    source := "Example News"
    keywords := "breach, major, acme, corp" }

/-- An article whose title is a substring of `artMajor`'s. -/
def artMinor : Article :=
  { search_term := "Ransomware"
    title := "Breach At Acme Corp"
    pub_date := "2023-11-14"
    time_ago := "5 hours ago"
    date_obj := 1699982000000
    link := "https://example.com/d"
    source := "Other News"
    keywords := "breach, acme, corp" }

/-- An article with an empty title. -/
def artEmpty : Article :=
  { search_term := "Data Leak"
    title := ""
    pub_date := "2023-11-14"
    time_ago := "1 hours ago"
    date_obj := 1699996400000
    link := ""
    source := "Unknown"
    keywords := "" }

/-- The article `fetchGoogleNews` assembles from `entryPast` at `now0`. -/
def artPastOut : Article :=
  { search_term := "Data Breach"
    title := "Major Breach At Acme Corp"
    pub_date := "2023-11-14"
    time_ago := "3 hours ago"
    date_obj := 1699989200000
    link := "https://example.com/a"
    source := "Example News"
    keywords := "breach, major, acme, corp, occurred" }

/-- The article `fetchGoogleNews` assembles from `entryFuture` at
`now0`: its timestamp lies one hour in the future, yet it is not
dropped (its relative age even renders as `"-1 hours ago"`). -/
def artFutureOut : Article :=
  { search_term := "Data Breach"
    title := "Future Breach"
    pub_date := "2023-11-14"
    time_ago := "-1 hours ago"
    date_obj := 1700003600000
    link := "https://example.com/b"
    source := "Example News"
    keywords := "breach, future, occur" }

/-! ## Theorems -/

/-! ### Stable sort lemmas -/

theorem insertLe_perm {α : Type} (le : α → α → Bool) (a : α) :
    ∀ (l : List α), List.Perm (insertLe le a l) (a :: l) := by
  intro l
  induction l with
  | nil => exact List.Perm.refl _
  | cons b t ih =>
    by_cases h : le a b = true
    · simp only [insertLe, if_pos h]
      exact List.Perm.refl _
    · simp only [insertLe, if_neg h]
      exact (ih.cons b).trans (List.Perm.swap a b t)

theorem stableSort_perm {α : Type} (le : α → α → Bool) :
    ∀ (l : List α), List.Perm (stableSort le l) l := by
  intro l
  induction l with
  | nil => exact List.Perm.refl _
  | cons a t ih =>
    exact (insertLe_perm le a (stableSort le t)).trans (ih.cons a)

theorem insertLe_pairwise {α : Type} (le : α → α → Bool)
    (htrans : ∀ a b c, le a b = true → le b c = true → le a c = true)
    (htotal : ∀ a b, (le a b || le b a) = true) (a : α) :
    ∀ (l : List α), l.Pairwise (fun x y => le x y = true) →
      (insertLe le a l).Pairwise (fun x y => le x y = true) := by
  intro l
  induction l with
  | nil => intro _; simp [insertLe]
  | cons b t ih =>
    intro h
    rcases List.pairwise_cons.mp h with ⟨hb, ht⟩
    by_cases hab : le a b = true
    · simp only [insertLe, if_pos hab]
      refine List.pairwise_cons.mpr ⟨?_, h⟩
      intro c hc
      rcases List.mem_cons.mp hc with rfl | hc
      · exact hab
      · exact htrans a b c hab (hb c hc)
    · simp only [insertLe, if_neg hab]
      refine List.pairwise_cons.mpr ⟨?_, ih ht⟩
      intro c hc
      rcases List.mem_cons.mp ((insertLe_perm le a t).mem_iff.mp hc) with rfl | h'
      · rcases Bool.or_eq_true_iff.mp (htotal c b) with h'' | h''
        · exact absurd h'' hab
        · exact h''
      · exact hb c h'

theorem stableSort_pairwise {α : Type} (le : α → α → Bool)
    (htrans : ∀ a b c, le a b = true → le b c = true → le a c = true)
    (htotal : ∀ a b, (le a b || le b a) = true) :
    ∀ (l : List α), (stableSort le l).Pairwise (fun x y => le x y = true) := by
  intro l
  induction l with
  | nil => simp [stableSort]
  | cons a t ih => exact insertLe_pairwise le htrans htotal a _ ih

theorem insertLe_filter_neg {α : Type} (le : α → α → Bool) (p : α → Bool)
    (a : α) (ha : p a = false) :
    ∀ (l : List α), (insertLe le a l).filter p = l.filter p := by
  intro l
  induction l with
  | nil => simp [insertLe, ha]
  | cons b t ih =>
    by_cases h : le a b = true
    · simp [insertLe, if_pos h, ha]
    · simp only [insertLe, if_neg h]
      by_cases hb : p b = true
      · simp [List.filter_cons, hb, ih]
      · simp only [Bool.not_eq_true] at hb
        simp [List.filter_cons, hb, ih]

theorem insertLe_filter_pos {α : Type} (le : α → α → Bool) (p : α → Bool)
    (a : α) (ha : p a = true) :
    ∀ (l : List α), (∀ b ∈ l, p b = true → le a b = true) →
      (insertLe le a l).filter p = a :: l.filter p := by
  intro l
  induction l with
  | nil => simp [insertLe, ha]
  | cons b t ih =>
    intro hb
    by_cases h : le a b = true
    · simp [insertLe, if_pos h, ha]
    · simp only [insertLe, if_neg h]
      have hpb : p b = false := by
        by_contra hc
        simp only [Bool.not_eq_false] at hc
        exact h (hb b (List.mem_cons_self b t) hc)
      rw [List.filter_cons_of_neg (by simp [hpb]),
        ih (fun c hc hpc => hb c (List.mem_cons_of_mem b hc) hpc),
        List.filter_cons_of_neg (by simp [hpb])]

/-- Stability of the embedded sort: elements of one comparator-tied
class (here: one value of a sort key, all mutually `le`) come out in
their original relative order — their `filter` is untouched. -/
theorem stableSort_filter {α : Type} (le : α → α → Bool) (p : α → Bool)
    (hp : ∀ x y, p x = true → p y = true → le x y = true) :
    ∀ (l : List α), (stableSort le l).filter p = l.filter p := by
  intro l
  induction l with
  | nil => rfl
  | cons a t ih =>
    show (insertLe le a (stableSort le t)).filter p = (a :: t).filter p
    by_cases ha : p a = true
    · rw [insertLe_filter_pos le p a ha _
        (fun b _ hpb => hp a b ha hpb), ih, List.filter_cons_of_pos (by simp [ha])]
    · simp only [Bool.not_eq_true] at ha
      rw [insertLe_filter_neg le p a ha, ih,
        List.filter_cons_of_neg (by simp [ha])]

/-! ### The title splitter (claim C6) -/

theorem splitSep_ne_nil (l : List Char) : splitSep l ≠ [] := by
  induction l using splitSep.induct with
  | case1 t ih => simp [splitSep]
  | case2 c cs hne ih =>
    rw [splitSep.eq_2 c cs hne]
    intro h
    exact ih (List.modifyHead_eq_nil_iff.mp h)
  | case3 => simp [splitSep]

theorem intercalate_cons_of_ne_nil (sep a : List Char) (tl : List (List Char))
    (h : tl ≠ []) :
    List.intercalate sep (a :: tl) = a ++ sep ++ List.intercalate sep tl := by
  obtain ⟨b, tl', rfl⟩ := List.exists_cons_of_ne_nil h
  simp [List.intercalate, List.intersperse_cons_cons]

theorem join_splitSep (l : List Char) :
    List.intercalate sepChars (splitSep l) = l := by
  induction l using splitSep.induct with
  | case1 t ih =>
    show List.intercalate sepChars ([] :: splitSep t) = _
    rw [intercalate_cons_of_ne_nil _ _ _ (splitSep_ne_nil t), ih]
    rfl
  | case2 c cs hne ih =>
    rw [splitSep.eq_2 c cs hne]
    obtain ⟨h, tl, hcs⟩ := List.exists_cons_of_ne_nil (splitSep_ne_nil cs)
    rw [hcs] at ih ⊢
    rw [List.modifyHead_cons]
    cases tl with
    | nil =>
      simp only [List.intercalate, List.intersperse_singleton, List.flatten,
        List.append_nil] at ih ⊢
      rw [ih]
    | cons b tl' =>
      rw [intercalate_cons_of_ne_nil _ _ _ (by simp)] at ih ⊢
      rw [← ih]
      simp
  | case3 => simp [splitSep, List.intercalate]

theorem splitSep_head_prefix :
    ∀ (l : List Char) {h : List Char} {tl : List (List Char)},
      splitSep l = h :: tl → h <+: l := by
  intro l
  induction l using splitSep.induct with
  | case1 t ih =>
    intro h tl heq
    rw [show splitSep (' ' :: '-' :: ' ' :: t) = [] :: splitSep t from rfl] at heq
    cases heq
    exact List.nil_prefix
  | case2 c cs hne ih =>
    intro h tl heq
    rw [splitSep.eq_2 c cs hne] at heq
    obtain ⟨h', tl', hcs⟩ := List.exists_cons_of_ne_nil (splitSep_ne_nil cs)
    rw [hcs, List.modifyHead_cons] at heq
    cases heq
    exact (List.cons_prefix_cons).mpr ⟨rfl, ih hcs⟩
  | case3 =>
    intro h tl heq
    rw [show splitSep ([] : List Char) = [[]] from rfl] at heq
    cases heq
    exact List.nil_prefix

theorem splitSep_sep_free (l : List Char) :
    ∀ p ∈ splitSep l, ¬ sepChars <:+: p := by
  induction l using splitSep.induct with
  | case1 t ih =>
    intro p hp
    rw [show splitSep (' ' :: '-' :: ' ' :: t) = [] :: splitSep t from rfl] at hp
    rcases List.mem_cons.mp hp with rfl | hp
    · simp [sepChars]
    · exact ih _ hp
  | case2 c cs hne ih =>
    intro p hp
    rw [splitSep.eq_2 c cs hne] at hp
    obtain ⟨h', tl', hcs⟩ := List.exists_cons_of_ne_nil (splitSep_ne_nil cs)
    rw [hcs, List.modifyHead_cons] at hp
    rcases List.mem_cons.mp hp with rfl | hp
    · intro hinf
      rcases List.infix_cons_iff.mp hinf with hpre | hinf'
      · -- the separator would be a prefix of `c :: h'`, so the scan would
        -- have matched it at this very position
        obtain ⟨t0, ht0⟩ := hpre
        injection ht0 with hc0 hrest
        obtain ⟨t1, ht1⟩ := splitSep_head_prefix cs hcs
        exact hne (t0 ++ t1) hc0.symm (by rw [← ht1, ← hrest]; rfl)
      · exact ih _ (hcs ▸ List.mem_cons_self h' tl') hinf'
    · exact ih _ (hcs ▸ List.mem_cons_of_mem h' hp)
  | case3 =>
    intro p hp
    rw [show splitSep ([] : List Char) = [[]] from rfl] at hp
    rcases List.mem_cons.mp hp with rfl | hp
    · simp [sepChars]
    · simp at hp

theorem two_le_splitSep_length (l : List Char) (h : sepChars <:+: l) :
    2 ≤ (splitSep l).length := by
  induction l using splitSep.induct with
  | case1 t ih =>
    rw [show splitSep (' ' :: '-' :: ' ' :: t) = [] :: splitSep t from rfl]
    have := List.length_pos.mpr (splitSep_ne_nil t)
    simp only [List.length_cons]
    omega
  | case2 c cs hne ih =>
    rw [splitSep.eq_2 c cs hne, List.length_modifyHead]
    rcases List.infix_cons_iff.mp h with hpre | hinf
    · obtain ⟨t0, ht0⟩ := hpre
      injection ht0 with hc0 hrest
      exact (hne t0 hc0.symm hrest.symm).elim
    · exact ih hinf
  | case3 => simp [sepChars] at h

theorem getLastD_default_irrel :
    ∀ (l : List (List Char)), l ≠ [] → ∀ d d', l.getLastD d = l.getLastD d' := by
  intro l
  induction l with
  | nil => intro h; exact absurd rfl h
  | cons a tl ih =>
    intro _ d d'
    cases tl with
    | nil => rfl
    | cons b tl' =>
      rw [List.getLastD_cons d a (b :: tl'), List.getLastD_cons d' a (b :: tl')]

theorem intercalate_dropLast_getLastD (sep : List Char) :
    ∀ (ps : List (List Char)), 2 ≤ ps.length →
      List.intercalate sep ps =
        List.intercalate sep ps.dropLast ++ sep ++ ps.getLastD [] := by
  intro ps
  induction ps with
  | nil => intro h; simp at h
  | cons a tl ih =>
    intro h
    cases tl with
    | nil => simp at h
    | cons b tl2 =>
      cases tl2 with
      | nil =>
        simp [List.intercalate, List.intersperse_cons_cons, List.getLastD_cons]
      | cons cc tl3 =>
        have h1 : List.intercalate sep (a :: b :: cc :: tl3)
            = a ++ sep ++ List.intercalate sep (b :: cc :: tl3) :=
          intercalate_cons_of_ne_nil sep a _ (by simp)
        have h2 := ih (by simp)
        have h3 : (a :: b :: cc :: tl3).dropLast = a :: (b :: cc :: tl3).dropLast :=
          List.dropLast_cons₂
        have h5 : List.intercalate sep (a :: (b :: cc :: tl3).dropLast)
            = a ++ sep ++ List.intercalate sep ((b :: cc :: tl3).dropLast) :=
          intercalate_cons_of_ne_nil sep a _ (by rw [List.dropLast_cons₂]; simp)
        have h6 : (a :: b :: cc :: tl3).getLastD [] = (b :: cc :: tl3).getLastD [] := by
          rw [List.getLastD_cons [] a (b :: cc :: tl3),
            getLastD_default_irrel (b :: cc :: tl3) (by simp) a []]
        rw [h1, h2, h3, h5, h6]
        simp [List.append_assoc]

/-- C6, amended.  For every raw title: with no occurrence of `" - "`
the result is the title unchanged and the sentinel `"Unknown"`;
otherwise the title and source are the parts before and after the
*last separator of the left-to-right non-overlapping split* — i.e.
rejoining them around one `" - "` restores the raw title, and the
source contains no further separator of that split (for non-overlapping
occurrences this is exactly the last occurrence; for overlapping ones
JS `split` differs from the textual "last occurrence", see the
counterexample). -/
theorem extractSourceFromTitle_split (l : List Char) :
    (sepChars <:+: l →
      (extractSourceFromTitle l).1 ++ sepChars ++ (extractSourceFromTitle l).2 = l
        ∧ ¬ sepChars <:+: (extractSourceFromTitle l).2)
    ∧ (¬ sepChars <:+: l → extractSourceFromTitle l = (l, "Unknown".toList)) := by
  constructor
  · intro h
    have hc : containsSub l sepChars = true := by
      simp [containsSub, h]
    unfold extractSourceFromTitle
    rw [if_pos hc]
    refine ⟨?_, ?_⟩
    · show List.intercalate sepChars (splitSep l).dropLast ++ sepChars
          ++ (splitSep l).getLastD [] = l
      rw [← intercalate_dropLast_getLastD sepChars (splitSep l)
        (two_le_splitSep_length l h)]
      exact join_splitSep l
    · show ¬ sepChars <:+: (splitSep l).getLastD []
      obtain ⟨h', tl', hcs⟩ := List.exists_cons_of_ne_nil (splitSep_ne_nil l)
      refine splitSep_sep_free l _ ?_
      rw [hcs, List.getLastD_cons [] h' tl']
      exact List.getLastD_mem_cons tl' h'
  · intro h
    unfold extractSourceFromTitle
    rw [if_neg]
    simp [containsSub, h]

/-- Witness for C6: a title with two (non-overlapping) separators,
`"A - B - C"`: the last split boundary yields source `"C"`, title
`"A - B"`, and rejoining restores the input; a separator-free title is
passed through with source `"Unknown"`. -/
theorem extractSourceFromTitle_split_witness :
    (sepChars <:+: ("A - B - C".toList)
      ∧ (extractSourceFromTitle ("A - B - C".toList)).1 ++ sepChars
          ++ (extractSourceFromTitle ("A - B - C".toList)).2 = "A - B - C".toList
      ∧ ¬ sepChars <:+: (extractSourceFromTitle ("A - B - C".toList)).2)
    ∧ (¬ sepChars <:+: ("No Separator Here".toList)
      ∧ extractSourceFromTitle ("No Separator Here".toList)
          = ("No Separator Here".toList, "Unknown".toList)) := by
  constructor
  · have h := (extractSourceFromTitle_split ("A - B - C".toList)).1 (by decide)
    exact ⟨by decide, h.1, h.2⟩
  · have h := (extractSourceFromTitle_split ("No Separator Here".toList)).2 (by decide)
    exact ⟨by decide, h⟩

/-- Counterexample to C6 as stated: on `"a - - b"` the occurrences of
`" - "` overlap; the code's left-to-right split gives
`("a", "- b")`, while splitting at the textual *last occurrence* (the
spec's words) would give `("a -", "b")`. -/
theorem extractSourceFromTitle_counterexample :
    extractSourceFromTitle ("a - - b".toList) = ("a".toList, "- b".toList)
    ∧ splitAtLastSep ("a - - b".toList) = some ("a -".toList, "b".toList)
    ∧ ("a".toList, "- b".toList)
        ≠ (("a -".toList : List Char), ("b".toList : List Char)) := by
  refine ⟨by decide, by decide, by decide⟩

/-! ### Deduplication (claims C2 and C9) -/

theorem isDupTitle_iff (seen : List (List Char)) (t : List Char) :
    isDupTitle seen t = true ↔ ∃ s ∈ seen, s <:+: t ∨ t <:+: s := by
  simp [isDupTitle, containsSub, List.any_eq_true]

theorem dedupGo_append (pre : List Article) :
    ∀ (seen : List (List Char)) (rest : List Article),
      dedupGo seen (pre ++ rest)
        = dedupGo seen pre ++ dedupGo (seenPlus seen pre) rest := by
  induction pre with
  | nil => intro seen rest; rfl
  | cons a pre' ih =>
    intro seen rest
    by_cases h : isDupTitle seen (titleKey a) = true
    · simp only [List.cons_append, dedupGo, seenPlus, if_pos h]
      exact ih seen rest
    · simp only [List.cons_append, dedupGo, seenPlus, if_neg h]
      exact congrArg (a :: ·) (ih (titleKey a :: seen) rest)

theorem mem_seenPlus (pre : List Article) :
    ∀ (seen : List (List Char)) (s : List Char),
      s ∈ seenPlus seen pre
        ↔ s ∈ seen ∨ ∃ b ∈ dedupGo seen pre, s = titleKey b := by
  induction pre with
  | nil => intro seen s; simp [seenPlus, dedupGo]
  | cons a pre' ih =>
    intro seen s
    by_cases h : isDupTitle seen (titleKey a) = true
    · simp only [seenPlus, dedupGo, if_pos h]
      exact (ih seen s).trans (by simp)
    · simp only [seenPlus, dedupGo, if_neg h]
      rw [ih (titleKey a :: seen) s]
      constructor
      · rintro (hs | hb)
        · rcases List.mem_cons.mp hs with rfl | hs
          · exact Or.inr ⟨a, List.mem_cons_self a _, rfl⟩
          · exact Or.inl hs
        · obtain ⟨b, hb, rfl⟩ := hb
          exact Or.inr ⟨b, List.mem_cons_of_mem a hb, rfl⟩
      · rintro (hs | hb)
        · exact Or.inl (List.mem_cons_of_mem _ hs)
        · obtain ⟨b, hb, rfl⟩ := hb
          rcases List.mem_cons.mp hb with rfl | hb
          · exact Or.inl (List.mem_cons_self _ _)
          · exact Or.inr ⟨b, hb, rfl⟩

theorem dedupGo_sublist : ∀ (l : List Article) (seen : List (List Char)),
    List.Sublist (dedupGo seen l) l := by
  intro l
  induction l with
  | nil => intro seen; exact List.Sublist.refl []
  | cons a rest ih =>
    intro seen
    by_cases h : isDupTitle seen (titleKey a) = true
    · simp only [dedupGo, if_pos h]
      exact (ih seen).cons a
    · simp only [dedupGo, if_neg h]
      exact (ih (titleKey a :: seen)).cons₂ a

/-- C2: processing order decides retention.  If some already-accepted
article's lowercased title is in substring relation (either direction)
with the candidate's, the candidate is dropped and the result is as if
it had not been present; otherwise the candidate is accepted right
after the accepted part of the prefix (so of two titles in substring
relation the first-encountered one is the one retained).  In either
case the output is a sublist of the input (first-seen order
preserved). -/
theorem dedupAccept (pre : List Article) (a : Article) (rest : List Article) :
    ((∃ b ∈ dedupArticles pre,
        titleKey b <:+: titleKey a ∨ titleKey a <:+: titleKey b) →
      dedupArticles (pre ++ a :: rest) = dedupArticles (pre ++ rest))
    ∧ (¬ (∃ b ∈ dedupArticles pre,
        titleKey b <:+: titleKey a ∨ titleKey a <:+: titleKey b) →
      dedupArticles (pre ++ a :: rest)
        = dedupArticles pre ++ a :: dedupGo (titleKey a :: seenPlus [] pre) rest)
    ∧ List.Sublist (dedupArticles (pre ++ a :: rest)) (pre ++ a :: rest) := by
  have hiff : isDupTitle (seenPlus [] pre) (titleKey a) = true
      ↔ ∃ b ∈ dedupArticles pre,
          titleKey b <:+: titleKey a ∨ titleKey a <:+: titleKey b := by
    rw [isDupTitle_iff]
    constructor
    · rintro ⟨s, hs, hrel⟩
      rcases (mem_seenPlus pre [] s).mp hs with hbad | ⟨b, hb, rfl⟩
      · simp at hbad
      · exact ⟨b, hb, hrel⟩
    · rintro ⟨b, hb, hrel⟩
      exact ⟨titleKey b, (mem_seenPlus pre [] _).mpr (Or.inr ⟨b, hb, rfl⟩), hrel⟩
  refine ⟨?_, ?_, ?_⟩
  · intro hdup
    unfold dedupArticles
    rw [dedupGo_append pre [] (a :: rest), dedupGo_append pre [] rest]
    congr 1
    simp only [dedupGo, if_pos (hiff.mpr hdup)]
  · intro hnot
    unfold dedupArticles
    rw [dedupGo_append pre [] (a :: rest)]
    congr 1
    simp only [dedupGo, if_neg (fun hh => hnot (hiff.mp hh))]
  · exact dedupGo_sublist _ []

/-- Witness for C2, the spec's own example: `"Major Breach At Acme
Corp"` then `"Breach At Acme Corp"` (substring relation) collapse to
the first-encountered one. -/
theorem dedupAccept_witness :
    (∃ b ∈ dedupArticles [artMajor],
        titleKey b <:+: titleKey artMinor ∨ titleKey artMinor <:+: titleKey b)
    ∧ dedupArticles [artMajor, artMinor] = dedupArticles [artMajor]
    ∧ dedupArticles [artMajor] = [artMajor] := by
  have h := (dedupAccept [artMajor] artMinor []).1
  exact ⟨by decide, h (by decide), by decide⟩

/-- C9: once the empty lowercased title is in the seen-set — which is
what accepting an empty-titled candidate does — every later candidate
is classified as a duplicate (the empty list is an infix of every
list), so nothing after it survives; in particular an empty-titled
first article makes it the only output. -/
theorem dedupEmptyTitle (seen : List (List Char)) (rest : List Article)
    (a : Article) :
    (([] : List Char) ∈ seen → dedupGo seen rest = [])
    ∧ (titleKey a = [] → dedupArticles (a :: rest) = [a]) := by
  have key : ∀ (l : List Article) (s : List (List Char)),
      ([] : List Char) ∈ s → dedupGo s l = [] := by
    intro l
    induction l with
    | nil => intro s _; rfl
    | cons b l' ih =>
      intro s hs
      have hdup : isDupTitle s (titleKey b) = true :=
        (isDupTitle_iff s _).mpr ⟨[], hs, Or.inl List.nil_infix⟩
      simp only [dedupGo, if_pos hdup]
      exact ih s hs
  refine ⟨key rest seen, ?_⟩
  intro ha
  have hstep : dedupGo [] (a :: rest) = a :: dedupGo [titleKey a] rest := by
    simp [dedupGo, isDupTitle]
  rw [dedupArticles, hstep,
    key rest [titleKey a] (by rw [ha]; exact List.mem_cons_self _ _)]

/-- Witness for C9: an empty-titled first article swallows the rest of
the list. -/
theorem dedupEmptyTitle_witness :
    (([] : List Char) ∈ [([] : List Char)]
      ∧ dedupGo [([] : List Char)] [artMajor] = [])
    ∧ (titleKey artEmpty = []
      ∧ dedupArticles [artEmpty, artMajor] = [artEmpty]) := by
  have h := dedupEmptyTitle [([] : List Char)] [artMajor] artEmpty
  exact ⟨⟨by decide, h.1 (by decide)⟩, ⟨by decide, h.2 (by decide)⟩⟩

/-! ### The recency filter and the aggregate bound (claim C1) -/

theorem processEntry_date_bound (L : Libs) (now weekAgo : Int) (term : String)
    (e : FeedEntry) (a : Article)
    (h : processEntry L now weekAgo term e = some a) :
    weekAgo ≤ a.date_obj := by
  cases heff : effPubDateStr e with
  | none =>
    simp only [processEntry, heff] at h
    by_cases hlt : now < weekAgo
    · rw [if_pos hlt] at h
      exact absurd h (by simp)
    · rw [if_neg hlt] at h
      injection h with h2
      subst h2
      show weekAgo ≤ now
      omega
  | some s =>
    cases hp : L.parse s with
    | none => simp [processEntry, heff, hp] at h
    | some d =>
      simp only [processEntry, heff, hp] at h
      by_cases hlt : d < weekAgo
      · rw [if_pos hlt] at h
        exact absurd h (by simp)
      · rw [if_neg hlt] at h
        injection h with h2
        subst h2
        show weekAgo ≤ d
        omega

/-- C1, amended.  Every article in the aggregate result of
`fetchGoogleNews` has `publishedAt ≥ now - 7 days` (`oneWeekAgo`);
entries with earlier timestamps are dropped by the per-entry filter,
before deduplication and sorting.  No upper bound is enforced: the
code's only check is `pubDateObj < oneWeekAgo`, so a future-dated
entry survives (see the counterexample). -/
theorem fetchWeekLowerBound (L : Libs) (now : Int)
    (feeds : List (String × List FeedEntry)) (a : Article)
    (h : a ∈ fetchGoogleNews L now feeds) :
    now - 7 * 86400000 ≤ a.date_obj := by
  have h1 : a ∈ dedupArticles (collectAll L now (now - 7 * 86400000) feeds) :=
    (stableSort_perm _ _).mem_iff.mp h
  have h2 : a ∈ collectAll L now (now - 7 * 86400000) feeds :=
    (dedupGo_sublist _ []).subset h1
  obtain ⟨l', hl', ha⟩ := List.mem_flatten.mp h2
  obtain ⟨f, _, rfl⟩ := List.mem_map.mp hl'
  obtain ⟨e, _, he⟩ := List.mem_filterMap.mp ha
  exact processEntry_date_bound L now _ f.1 e a he

/-- Witness for C1: the three-hour-old entry `entryPast` survives into
the aggregate result and its timestamp is within the window. -/
theorem fetchWeekLowerBound_witness :
    artPastOut ∈ fetchGoogleNews libs0 now0 [("Data Breach", [entryPast])]
    ∧ now0 - 7 * 86400000 ≤ artPastOut.date_obj := by
  have hmem : artPastOut ∈ fetchGoogleNews libs0 now0 [("Data Breach", [entryPast])] := by
    decide
  exact ⟨hmem, fetchWeekLowerBound libs0 now0 _ artPastOut hmem⟩

/-- Counterexample to C1 as stated: the upper end of the claimed window
`[now - 7d, now]` is not enforced.  `entryFuture` is dated one hour
after `now0`, yet its article is in the aggregate result with
`publishedAt > now0` instead of being dropped. -/
theorem fetchUpperBound_counterexample :
    artFutureOut ∈ fetchGoogleNews libs0 now0 [("Data Breach", [entryFuture])]
    ∧ now0 < artFutureOut.date_obj := by
  exact ⟨by decide, by decide⟩

/-! ### Sorting of the aggregate result (claim C3) -/

theorem dateLe_trans (a b c : Article)
    (h1 : (decide (b.date_obj ≤ a.date_obj)) = true)
    (h2 : (decide (c.date_obj ≤ b.date_obj)) = true) :
    (decide (c.date_obj ≤ a.date_obj)) = true := by
  simp only [decide_eq_true_eq] at *
  omega

theorem dateLe_total (a b : Article) :
    ((decide (b.date_obj ≤ a.date_obj)) || (decide (a.date_obj ≤ b.date_obj))) = true := by
  simp only [Bool.or_eq_true, decide_eq_true_eq]
  omega

/-- Stability of the date sort: the articles carrying any fixed
timestamp come out of `sortArticles` exactly as they went in. -/
theorem sortArticles_filter_date (l : List Article) (t : Int) :
    (sortArticles l).filter (fun a => decide (a.date_obj = t))
      = l.filter (fun a => decide (a.date_obj = t)) := by
  refine stableSort_filter _ _ ?_ l
  intro x y hx hy
  simp only [decide_eq_true_eq] at hx hy ⊢
  omega

/-- C3: the aggregate result is sorted by `publishedAt` descending
(later timestamps first), and the sort is stable: for each timestamp
the articles carrying it appear in the same relative order as in the
deduplicated input sequence. -/
theorem fetchSorted (L : Libs) (now : Int)
    (feeds : List (String × List FeedEntry)) :
    (fetchGoogleNews L now feeds).Pairwise
        (fun a b => b.date_obj ≤ a.date_obj)
    ∧ ∀ t : Int,
        (fetchGoogleNews L now feeds).filter (fun a => decide (a.date_obj = t))
          = (dedupArticles (collectAll L now (now - 7 * 86400000) feeds)).filter
              (fun a => decide (a.date_obj = t)) := by
  constructor
  · have hs := stableSort_pairwise _ dateLe_trans dateLe_total
      (dedupArticles (collectAll L now (now - 7 * 86400000) feeds))
    exact hs.imp (fun h => by simpa [decide_eq_true_eq] using h)
  · intro t
    exact sortArticles_filter_date
      (dedupArticles (collectAll L now (now - 7 * 86400000) feeds)) t

/-! ### Keyword extraction (claim C4) -/

theorem mem_bump_fst :
    ∀ (acc : List (String × Nat)) (w : String) (q : String × Nat),
      q ∈ bump acc w → q.1 = w ∨ q.1 ∈ acc.map Prod.fst := by
  intro acc
  induction acc with
  | nil =>
    intro w q hq
    simp only [bump, List.mem_singleton] at hq
    subst hq
    exact Or.inl rfl
  | cons kn rest ih =>
    intro w q hq
    obtain ⟨k, n⟩ := kn
    by_cases hk : k = w
    · simp only [bump, if_pos hk] at hq
      rcases List.mem_cons.mp hq with rfl | hq
      · exact Or.inl hk
      · exact Or.inr (List.mem_map_of_mem Prod.fst (List.mem_cons_of_mem _ hq))
    · simp only [bump, if_neg hk] at hq
      rcases List.mem_cons.mp hq with rfl | hq
      · exact Or.inr (List.mem_map_of_mem Prod.fst (List.mem_cons_self _ _))
      · rcases ih w q hq with h | h
        · exact Or.inl h
        · exact Or.inr (by rw [List.map_cons]; exact List.mem_cons_of_mem _ h)

theorem mem_bump_pos :
    ∀ (acc : List (String × Nat)) (w : String) (q : String × Nat),
      (∀ r ∈ acc, 0 < r.2) → q ∈ bump acc w → 0 < q.2 := by
  intro acc
  induction acc with
  | nil =>
    intro w q _ hq
    simp only [bump, List.mem_singleton] at hq
    subst hq
    exact Nat.one_pos
  | cons kn rest ih =>
    intro w q hacc hq
    obtain ⟨k, n⟩ := kn
    by_cases hk : k = w
    · simp only [bump, if_pos hk] at hq
      rcases List.mem_cons.mp hq with rfl | hq
      · exact Nat.succ_pos n
      · exact hacc q (List.mem_cons_of_mem _ hq)
    · simp only [bump, if_neg hk] at hq
      rcases List.mem_cons.mp hq with rfl | hq
      · exact hacc (k, n) (List.mem_cons_self _ _)
      · exact ih w q (fun r hr => hacc r (List.mem_cons_of_mem _ hr)) hq

theorem mem_foldl_bump :
    ∀ (ws : List String) (acc : List (String × Nat)) (q : String × Nat),
      q ∈ ws.foldl bump acc → q.1 ∈ acc.map Prod.fst ∨ q.1 ∈ ws := by
  intro ws
  induction ws with
  | nil => intro acc q hq; exact Or.inl (List.mem_map_of_mem Prod.fst hq)
  | cons w ws' ih =>
    intro acc q hq
    rcases ih (bump acc w) q hq with h | h
    · obtain ⟨r, hr, hrq⟩ := List.mem_map.mp h
      rcases mem_bump_fst acc w r hr with h' | h'
      · exact Or.inr (by rw [← hrq, h']; exact List.mem_cons_self _ _)
      · exact Or.inl (hrq ▸ h')
    · exact Or.inr (List.mem_cons_of_mem w h)

theorem mem_foldl_bump_pos :
    ∀ (ws : List String) (acc : List (String × Nat)) (q : String × Nat),
      (∀ r ∈ acc, 0 < r.2) → q ∈ ws.foldl bump acc → 0 < q.2 := by
  intro ws
  induction ws with
  | nil => intro acc q hacc hq; exact hacc q hq
  | cons w ws' ih =>
    intro acc q hacc hq
    exact ih (bump acc w) q (fun r hr => mem_bump_pos acc w r hacc hr) hq

theorem mem_countFreq (ws : List String) (q : String × Nat)
    (h : q ∈ countFreq ws) : q.1 ∈ ws ∧ 0 < q.2 := by
  refine ⟨?_, mem_foldl_bump_pos ws [] q (by simp) h⟩
  rcases mem_foldl_bump ws [] q h with h' | h'
  · simp at h'
  · exact h'

theorem mem_jsEntries (m : List (String × Nat)) (q : String × Nat)
    (h : q ∈ jsEntries m) : q ∈ m := by
  rcases List.mem_append.mp h with h' | h'
  · exact List.mem_of_mem_filter ((stableSort_perm _ _).mem_iff.mp h')
  · exact List.mem_of_mem_filter h'

theorem pairLe_trans (a b c : String × Nat)
    (h1 : (decide (b.2 ≤ a.2)) = true) (h2 : (decide (c.2 ≤ b.2)) = true) :
    (decide (c.2 ≤ a.2)) = true := by
  simp only [decide_eq_true_eq] at *
  omega

theorem pairLe_total (a b : String × Nat) :
    ((decide (b.2 ≤ a.2)) || (decide (a.2 ≤ b.2))) = true := by
  simp only [Bool.or_eq_true, decide_eq_true_eq]
  omega

/-- C4, amended.  `extractKeywords` returns at most `topN` pairs; every
returned term is the stem of a kept token — one produced by the
tokenizer from the cleaned text that survives the stopword removal, is
not in the fixed extra list, matches `[a-z0-9]+` and is longer than two
characters — with a positive frequency; the pairs are sorted by
frequency descending and the sort is stable; and empty (or absent)
input yields the empty sequence.  Ties, however, keep the enumeration
order of the frequency object — `Object.entries` lists stems that are
canonical array-index strings first, in ascending numeric order, and
only the remaining stems in first-encounter order (see the
counterexample).  Proved for every instantiation of the external
stopword list, stemmer and tokenizer. -/
theorem extractKeywords_props (stopF : String → Bool) (stem : String → String)
    (tokenize : String → List String) (text : String) (topN : Nat) :
    (extractKeywords stopF stem tokenize text topN).length ≤ topN
    ∧ (∀ p ∈ extractKeywords stopF stem tokenize text topN,
        ∃ w, w ∈ tokenize (cleanText text) ∧ stopF w = false
          ∧ additionalStops.contains w = false ∧ isAlnumWord w = true
          ∧ 2 < w.length ∧ p.1 = stem w ∧ 0 < p.2)
    ∧ (extractKeywords stopF stem tokenize text topN).Pairwise
        (fun a b => b.2 ≤ a.2)
    ∧ (∀ (l : List (String × Nat)) (n : Nat),
        (sortPairs l).filter (fun p => decide (p.2 = n))
          = l.filter (fun p => decide (p.2 = n)))
    ∧ extractKeywords stopF stem tokenize "" topN = [] := by
  refine ⟨?_, ?_, ?_, ?_, by simp [extractKeywords]⟩
  · by_cases ht : text = ""
    · simp [extractKeywords, ht]
    · simp only [extractKeywords, if_neg ht]
      calc _ ≤ min topN _ := Nat.le_of_eq (List.length_take _ _)
        _ ≤ topN := Nat.min_le_left _ _
  · intro p hp
    by_cases ht : text = ""
    · simp [extractKeywords, ht] at hp
    · simp only [extractKeywords, if_neg ht] at hp
      have h1 := (List.take_sublist topN _).subset hp
      have h2 := (stableSort_perm _ _).mem_iff.mp h1
      have h3 := mem_jsEntries _ _ h2
      obtain ⟨hmem, hpos⟩ := mem_countFreq _ _ h3
      obtain ⟨w, hw, hws⟩ := List.mem_map.mp hmem
      have hw2 := List.mem_filter.mp hw
      have hw3 := List.mem_filter.mp hw2.1
      refine ⟨w, hw3.1, ?_, ?_, ?_, ?_, hws.symm, hpos⟩
      · have := hw3.2
        simp only [Bool.not_eq_true'] at this
        exact this
      · rcases Bool.and_eq_true_iff.mp hw2.2 with ⟨hand, hlen⟩
        rcases Bool.and_eq_true_iff.mp hand with ⟨hstop, _⟩
        simp only [Bool.not_eq_true'] at hstop
        exact hstop
      · rcases Bool.and_eq_true_iff.mp hw2.2 with ⟨hand, _⟩
        exact (Bool.and_eq_true_iff.mp hand).2
      · rcases Bool.and_eq_true_iff.mp hw2.2 with ⟨_, hlen⟩
        exact of_decide_eq_true hlen
  · by_cases ht : text = ""
    · simp [extractKeywords, ht]
    · simp only [extractKeywords, if_neg ht]
      have hs := stableSort_pairwise _ pairLe_trans pairLe_total
        (jsEntries (countFreq ((((tokenize (cleanText text)).filter
          (fun w => !stopF w)).filter (fun w =>
            !additionalStops.contains w && isAlnumWord w
              && decide (2 < w.length))).map stem)))
      exact ((hs.sublist (List.take_sublist _ _)).imp
        (fun h => by simpa [decide_eq_true_eq] using h))
  · intro l n
    refine stableSort_filter _ _ ?_ l
    intro x y hx hy
    simp only [decide_eq_true_eq] at hx hy ⊢
    omega

/-- Counterexample to C4 as stated: on input `"999 111"` the two stems
are array-index keys of the frequency object, so `Object.entries`
yields them in ascending numeric order, not first-encounter order; the
tied pairs come out `("111", 1), ("999", 1)` although `999` was
encountered first (`extractKeywordsSpecOrder` is the spec's
first-encounter reading). -/
theorem extractKeywords_order_counterexample :
    extractKeywordsModel "999 111" 5 = [("111", 1), ("999", 1)]
    ∧ extractKeywordsSpecOrder stopModel stemModel tokenizeModel "999 111" 5
        = [("999", 1), ("111", 1)]
    ∧ ([("111", 1), ("999", 1)] : List (String × Nat))
        ≠ [("999", 1), ("111", 1)] := by
  exact ⟨by decide, by decide, by decide⟩

/-! ### The cache and the handler (claims C5 and C10) -/

/-- C5: from an empty cache, a request at `t0` fetches and stores the
result built at `t0`; a request at `t0 + 30min` is served the *same*
stored payload with no fetch and no cache write; a request at
`t0 + 61min` finds the entry expired (TTL one hour), fetches again and
returns a payload whose `generated_at` differs from the first.
(`0 < t0` reflects a real clock: a stored timestamp of `0` would be
falsy in the JS freshness test.) -/
theorem cacheTtl (t0 : Int) (arts1 arts2 arts3 : List Article) (h : 0 < t0) :
    breachNewsHandler ⟨none, none⟩ t0 (.ok arts1)
      = (.ok (buildResult t0 arts1),
          ⟨some (buildResult t0 arts1), some t0⟩, true)
    ∧ breachNewsHandler ⟨some (buildResult t0 arts1), some t0⟩
        (t0 + 1800000) (.ok arts2)
      = (.ok (buildResult t0 arts1),
          ⟨some (buildResult t0 arts1), some t0⟩, false)
    ∧ breachNewsHandler ⟨some (buildResult t0 arts1), some t0⟩
        (t0 + 3660000) (.ok arts3)
      = (.ok (buildResult (t0 + 3660000) arts3),
          ⟨some (buildResult (t0 + 3660000) arts3), some (t0 + 3660000)⟩, true)
    ∧ (buildResult (t0 + 3660000) arts3).meta.generated_at
        ≠ (buildResult t0 arts1).meta.generated_at := by
  refine ⟨rfl, ?_, ?_, ?_⟩
  · show (match cachedPayload _ _ with
      | some p => _
      | none => _) = _
    rw [show cachedPayload ⟨some (buildResult t0 arts1), some t0⟩ (t0 + 1800000)
        = some (buildResult t0 arts1) from by
      simp only [cachedPayload]
      rw [if_pos ⟨by omega, by simp only [cacheExpiresIn]; omega⟩]]
  · show (match cachedPayload _ _ with
      | some p => _
      | none => _) = _
    rw [show cachedPayload ⟨some (buildResult t0 arts1), some t0⟩ (t0 + 3660000)
        = none from by
      simp only [cachedPayload]
      rw [if_neg (by simp only [cacheExpiresIn]; omega)]]
  · show t0 + 3660000 ≠ t0
    omega

/-- Witness for C5 at `t0 = 1` with empty article lists. -/
theorem cacheTtl_witness :
    (0 : Int) < 1
    ∧ breachNewsHandler ⟨none, none⟩ 1 (.ok [])
      = (.ok (buildResult 1 []), ⟨some (buildResult 1 []), some 1⟩, true)
    ∧ breachNewsHandler ⟨some (buildResult 1 []), some 1⟩ 1800001 (.ok [])
      = (.ok (buildResult 1 []), ⟨some (buildResult 1 []), some 1⟩, false)
    ∧ breachNewsHandler ⟨some (buildResult 1 []), some 1⟩ 3660001 (.ok [artMajor])
      = (.ok (buildResult 3660001 [artMajor]),
          ⟨some (buildResult 3660001 [artMajor]), some 3660001⟩, true)
    ∧ (buildResult 3660001 [artMajor]).meta.generated_at
        ≠ (buildResult 1 []).meta.generated_at := by
  have h := cacheTtl 1 [] [] [artMajor] (by decide)
  exact ⟨by decide, h.1, h.2.1, h.2.2.1, h.2.2.2⟩

/-- C10: when the cache cannot serve the request (empty or expired, so
the fetch is invoked) and the fetch throws, the handler answers with
the 500 error response and the cache fields are exactly as before: the
two cache writes sit after the fetch in the `try` block, so an error
never clobbers a stored result. -/
theorem handlerError (c : NewsCache) (now : Int) (e : String)
    (h : cachedPayload c now = none) :
    breachNewsHandler c now (.error e) = (.serverError e, c, true) := by
  show (match cachedPayload c now with
    | some p => _
    | none => _) = _
  rw [h]

/-- Witness for C10: an empty cache and a failing fetch. -/
theorem handlerError_witness :
    cachedPayload ⟨none, none⟩ 5 = none
    ∧ breachNewsHandler ⟨none, none⟩ 5 (.error "network down")
      = (.serverError "network down", ⟨none, none⟩, true) := by
  exact ⟨rfl, handlerError ⟨none, none⟩ 5 "network down" rfl⟩

/-! ### Unparseable publish dates (claim C7) -/

/-- C7 concerns a code bug.  The claim (and the comments in
`parseDate`) say an unparseable date falls back to the fetch-time
`now`; but `new Date(badString)` does not throw — it yields an Invalid
Date — so the `catch` in `parseDate` is dead.  The Invalid Date then
passes the recency filter (a NaN comparison is false) and
`toISOString()` throws, so the per-entry `catch` *skips* the entry.
This theorem evaluates the embedded pipeline at the failing input:
`entryBadDate` carries a present but unparseable `pubDate`, and its
entry is dropped (`none`) instead of being included with
`publishedAt = now`. -/
theorem processEntryUnparseableDate :
    effPubDateStr entryBadDate = some "not-a-date"
    ∧ parse0 "not-a-date" = none
    ∧ processEntry libs0 now0 (now0 - 7 * 86400000) "Data Breach" entryBadDate
        = none := by
  exact ⟨by decide, by decide, by decide⟩

/-! ### The HTML report (claim C8) -/

/-- C8, amended.  `generateHtmlReport` is a pure function of the
article list *and the clock instant* at which it runs; it is
independent of the clock only on empty input, where it returns the
fixed "no articles" document.  On non-empty input the date range and
the footer timestamp are read from the clock, so two invocations on
the same list at different instants produce different documents (see
the counterexample). -/
theorem reportEmptyPure (t1 t2 : Int) :
    generateHtmlReport t1 [] = generateHtmlReport t2 []
    ∧ generateHtmlReport t1 [] = emptyReportHtml := by
  have h : ∀ t : Int, generateHtmlReport t [] = emptyReportHtml := by
    intro t
    simp [generateHtmlReport]
  exact ⟨(h t1).trans (h t2).symm, h t1⟩

/-- Counterexample to C8 as stated: the same one-article list rendered
one second apart yields different documents (the footer timestamp
`new Date().toISOString()...` advances), so the renderer is not a pure
function of the article list alone. -/
theorem reportClock_counterexample :
    generateHtmlReport 1700000000000 [artMajor]
      ≠ generateHtmlReport 1700000001000 [artMajor] := by
  intro hEq
  have e1 : generateHtmlReport 1700000000000 [artMajor]
      = reportHead (formatDate (1700000000000 - 7 * 86400000) ++ " - "
            ++ formatFullDate 1700000000000) 1
        ++ String.join (List.map articleRow [artMajor])
        ++ reportFoot 1700000000000 := rfl
  have e2 : generateHtmlReport 1700000001000 [artMajor]
      = reportHead (formatDate (1700000001000 - 7 * 86400000) ++ " - "
            ++ formatFullDate 1700000001000) 1
        ++ String.join (List.map articleRow [artMajor])
        ++ reportFoot 1700000001000 := rfl
  have hdr : formatDate (1700000001000 - 7 * 86400000) ++ " - "
        ++ formatFullDate 1700000001000
      = formatDate (1700000000000 - 7 * 86400000) ++ " - "
        ++ formatFullDate 1700000000000 := by decide
  rw [e1, e2, hdr] at hEq
  have hd := congrArg String.data hEq
  simp only [String.data_append] at hd
  have hf := List.append_cancel_left hd
  simp only [reportFoot, String.data_append] at hf
  have hf2 := List.append_cancel_right hf
  have hf3 := List.append_cancel_right hf2
  have hf4 := List.append_cancel_left hf3
  exact absurd hf4 (by decide)

end BreachNews
